import Mathlib

/-!
# AmbienceManager (src/src/ambiencemanager.cpp)

A shallow embedding of the `AmbienceManager` class: its member variables become the fields of
a structure, each member function becomes a function on that structure, and the collaborators
the class talks to (the filesystem, the network access manager `mNam`, the signals it emits and
the D-Bus interface `mInterface`) are made explicit:

* the filesystem gives, for each path, the contents of the file the path leads to; which
  paths lead to the same file (`.`, `..`, doubled slashes, links) and at which paths a file
  can be opened for writing (the directory exists and can be written) is taken as given, see
  `Paths`; a `QFile` operation on a path acts on every path that leads to the same file;
  `remove` and reading never fail;
* `mNam` is the list of the reply objects it has handed out and that are still alive;
* signals emitted, `mNam.get` calls and D-Bus calls are appended to a trace, in program order;
* `qDebug` output is not modelled.

A dereference of a null or deleted pointer, and `QQueue::dequeue` on an empty queue, make the
member function return `none`.
-/

namespace TrulyYours

abbrev QString := String

abbrev QUrl := String

abbrev QByteArray := List Nat

/-- The filesystem: the contents of the file each path leads to, `none` where no file
exists. -/
abbrev FileSystem := QString → Option QByteArray

/-- What the operating system decides about paths. -/
structure Paths where
  /-- The canonical form of a path: two paths lead to the same file exactly when their
  canonical forms are equal. -/
  canonical : QString → QString
  /-- Whether a file can be opened for writing at the path, creating it if it is missing:
  its directory exists and can be written. -/
  writable : QString → Bool

/-- The two Qt computations whose results the class only passes on. -/
structure QtLib where
  /-- The string `QUrl::fromLocalFile(path).toString()`. -/
  fromLocalFile : QString → QString
  /-- The bytes `QImage::save` writes to the file of the given name for the image decoded from
  the given bytes and scaled to 250 x 740 (no bytes when the data does not decode or the
  image format cannot be told). -/
  scaledThumbnail : QString → QByteArray → QByteArray

namespace QFile

/-- The static `QFile::exists(path)`. -/
def fileExists (fs : FileSystem) (path : QString) : Bool :=
  (fs path).isSome

/-- The static `QFile::copy(src, dst)`: copies only when `src` exists, `dst` does not (an
existing file is never overwritten) and a file can be created at `dst`; otherwise it fails
and nothing changes. -/
def copy (paths : Paths) (fs : FileSystem) (src dst : QString) : FileSystem :=
  match fs src, fs dst with
  | some c, none =>
    if paths.writable dst then
      fun p => if paths.canonical p = paths.canonical dst then some c else fs p
    else
      fs
  | _, _ => fs

/-- The call `open(QIODevice::WriteOnly)`: creates the file, or truncates the existing one;
where the path cannot be opened for writing it fails and nothing changes. -/
def openWriteOnly (paths : Paths) (fs : FileSystem) (path : QString) : FileSystem :=
  if paths.writable path then
    fun p => if paths.canonical p = paths.canonical path then some [] else fs p
  else
    fs

/-- Writing `bytes` through the handle `openWriteOnly` was called on, not written to before:
the bytes go to offset 0 of the file; nothing is written when the handle could not be
opened. -/
def write (paths : Paths) (fs : FileSystem) (path : QString) (bytes : QByteArray) :
    FileSystem :=
  if paths.writable path then
    fun p =>
      if paths.canonical p = paths.canonical path then
        (fs path).map (fun c => bytes ++ c.drop bytes.length)
      else
        fs p
  else
    fs

end QFile

namespace QFileInfo

/-- The call `QFileInfo::fileName()`: the part of the path after the last `/`. -/
def fileName (path : QString) : QString :=
  String.mk (path.data.reverse.takeWhile (fun c => c != '/')).reverse

end QFileInfo

/-- The two slots that the class connects to `QNetworkReply::finished`. -/
inductive Slot
  | onSaveThumbnailFinished
  | onSaveFullImageFinished
  deriving DecidableEq, Repr

/-- A reply object handed out by `mNam.get`. `slot` is the slot its `finished` signal was
connected to right after creation, `connected` tells whether that connection still stands,
`result` is `none` while the fetch is in flight and `some (error, data)` once it has
finished. `name` is not part of the Qt object: it records the name the caller gave with the
URL, so that a fetch can be tied to the request it serves. -/
structure QNetworkReply where
  id : Nat
  url : QUrl
  name : QString
  slot : Slot
  connected : Bool
  result : Option (Bool × QByteArray)
  deriving DecidableEq, Repr

namespace QNetworkReply

/-- The call `error()`: no error while the fetch is in flight. -/
def error (r : QNetworkReply) : Bool :=
  match r.result with
  | some (e, _) => e
  | none => false

/-- The call `readAll()`: the fetched bytes (a fetch delivers all its bytes when it
finishes). -/
def readAll (r : QNetworkReply) : QByteArray :=
  match r.result with
  | some (_, d) => d
  | none => []

end QNetworkReply

/-- What the manager does to the outside, in program order. -/
inductive Effect
  | get (url : QUrl)
  | saveThumbnailSucceeded (name : QString)
  | saveFullImageSucceeded (path : QString)
  | saveImageToGallerySucceeded
  | createAmbience (url : QString)
  | setAmbience (url : QString)
  deriving DecidableEq, Repr

/-- The member variables of `AmbienceManager`, with the paths, the filesystem and the trace of
effects. A reply pointer is the id of the reply object, a `QFile` pointer is the file name it
was given; `none` is the null pointer. -/
@[ext]
structure AmbienceManager where
  mPictureLocation : QString
  mCacheLocation : QString
  mThumbnailReply : Option Nat
  mFullImageReply : Option Nat
  mThumbnail : Option QString
  mFullImage : Option QString
  mThumbnailQueue : List (QUrl × QString)
  mSavedFullImages : List QString
  mNam : List QNetworkReply
  nextReply : Nat
  paths : Paths
  fs : FileSystem
  trace : List Effect

namespace AmbienceManager

/-- The constructor (lines 37-54), for the two locations `QStandardPaths` reports and the
paths and filesystem it finds (`writable` tells whether `mkpath` made the cache directory). -/
def init (pictureLocation cacheLocation : QString) (paths : Paths) (fs : FileSystem) :
    AmbienceManager :=
  { mPictureLocation := pictureLocation
    mCacheLocation := cacheLocation
    mThumbnailReply := none
    mFullImageReply := none
    mThumbnail := none
    mFullImage := none
    mThumbnailQueue := []
    mSavedFullImages := []
    mNam := []
    nextReply := 0
    paths := paths
    fs := fs
    trace := [] }

/-- The reply object a pointer points to, `none` once it has been deleted. -/
def reply (s : AmbienceManager) (r : Nat) : Option QNetworkReply :=
  s.mNam.find? (fun x => x.id == r)

/-- The call `mNam.get(request)` followed by `connect(reply, finished, this, slot)`, for the
request `(url, name)`. -/
def get (s : AmbienceManager) (url : QUrl) (name : QString) (slot : Slot) : AmbienceManager :=
  { s with
    mNam := s.mNam ++ [{ id := s.nextReply, url := url, name := name, slot := slot,
                         connected := true, result := none }]
    nextReply := s.nextReply + 1
    trace := s.trace ++ [Effect.get url] }

/-- The call `disconnect(reply, finished, this, slot)`. -/
def disconnect (s : AmbienceManager) (r : Nat) (slot : Slot) : AmbienceManager :=
  { s with
    mNam := s.mNam.map (fun x =>
      if x.id == r && x.slot == slot then { x with connected := false } else x) }

/-- The call `reply->deleteLater()`: the reply object is destroyed. -/
def deleteLater (s : AmbienceManager) (r : Nat) : AmbienceManager :=
  { s with mNam := s.mNam.filter (fun x => !(x.id == r)) }

/-- Reply `r` finishes: it records its error flag and the data fetched. -/
def setFinished (s : AmbienceManager) (r : Nat) (error : Bool) (data : QByteArray) :
    AmbienceManager :=
  { s with
    mNam := s.mNam.map (fun x =>
      if x.id == r then { x with result := some (error, data) } else x) }

/-- Emitting a signal, or calling the D-Bus interface. -/
def emit (s : AmbienceManager) (e : Effect) : AmbienceManager :=
  { s with trace := s.trace ++ [e] }

/-- The member function `thumbnail` (lines 93-96). -/
def thumbnail (s : AmbienceManager) (name : QString) : QString :=
  s.mCacheLocation ++ "/" ++ name

/-- The member function `hasThumbnail` (lines 98-102). -/
def hasThumbnail (s : AmbienceManager) (name : QString) : Bool :=
  let filePath := s.mCacheLocation ++ "/" ++ name
  QFile.fileExists s.fs filePath

/-- The static function `createAmbienceImage` (lines 104-107). -/
def createAmbienceImage (pictureLocation name : QString) : QString :=
  pictureLocation ++ "/ambience-" ++ name

/-- The member function `saveImageToGallery` (lines 109-121): the return value and the
state afterwards. -/
def saveImageToGallery (s : AmbienceManager) (name : QString) : Bool × AmbienceManager :=
  if !QFile.fileExists s.fs (s.mCacheLocation ++ "/ambience-" ++ name) then
    (false, s)
  else
    let s1 := { s with
      fs := QFile.copy s.paths s.fs (s.mCacheLocation ++ "/ambience-" ++ name)
              (createAmbienceImage s.mPictureLocation name) }
    let s2 := { s1 with
      mSavedFullImages := s1.mSavedFullImages ++ [s1.mCacheLocation ++ "/ambience-" ++ name] }
    (true, s2.emit Effect.saveImageToGallerySucceeded)

/-- The member function `saveImageToGalleryAndApplyAmbience` (lines 123-133). -/
def saveImageToGalleryAndApplyAmbience (qt : QtLib) (s : AmbienceManager) (name : QString) :
    Bool × AmbienceManager :=
  let saved := s.saveImageToGallery name
  let s1 := saved.2
  if !saved.1 then
    (false, s1)
  else
    let url := qt.fromLocalFile (createAmbienceImage s1.mPictureLocation name)
    (true, (s1.emit (Effect.createAmbience url)).emit (Effect.setAmbience url))

/-- The member function `saveNextThumbnail` (lines 144-157). -/
def saveNextThumbnail (s : AmbienceManager) : Option AmbienceManager :=
  match s.mThumbnailQueue with
  | [] => none
  | thumbnail :: rest =>
    let s1 := { s with mThumbnailQueue := rest }
    let s2 := { s1.get thumbnail.1 thumbnail.2 Slot.onSaveThumbnailFinished with
      mThumbnailReply := some s1.nextReply }
    let file := s2.mCacheLocation ++ "/" ++ thumbnail.2
    some { s2 with
      mThumbnail := some file
      fs := QFile.openWriteOnly s2.paths s2.fs file }

/-- The member function `saveThumbnail` (lines 135-142). -/
def saveThumbnail (s : AmbienceManager) (fileUrl : QUrl) (name : QString) :
    Option AmbienceManager :=
  let s1 := { s with mThumbnailQueue := s.mThumbnailQueue ++ [(fileUrl, name)] }
  if s1.mThumbnailReply.isNone then
    s1.saveNextThumbnail
  else
    some s1

/-- The slot `onSaveThumbnailFinished` (lines 159-184). -/
def onSaveThumbnailFinished (qt : QtLib) (s : AmbienceManager) : Option AmbienceManager :=
  match s.mThumbnailReply with
  | none => none
  | some r =>
    let s1 := s.disconnect r Slot.onSaveThumbnailFinished
    match s1.reply r with
    | none => none
    | some rep =>
      let saved : Option AmbienceManager :=
        if !rep.error then
          match s1.mThumbnail with
          | none => none
          | some file =>
            let s1a := { s1 with
              fs := QFile.write s1.paths s1.fs file (qt.scaledThumbnail file rep.readAll) }
            let s1b := { s1a with mThumbnail := none }
            some (s1b.emit (Effect.saveThumbnailSucceeded (QFileInfo.fileName file)))
        else
          some s1
      match saved with
      | none => none
      | some s2 =>
        let s3 := { s2.deleteLater r with mThumbnailReply := none }
        if !s3.mThumbnailQueue.isEmpty then
          s3.saveNextThumbnail
        else
          some s3

/-- The member function `saveFullImage` (lines 186-197). -/
def saveFullImage (s : AmbienceManager) (fileUrl : QUrl) (name : QString) : AmbienceManager :=
  let s1 := { s.get fileUrl name Slot.onSaveFullImageFinished with
    mFullImageReply := some s.nextReply }
  let file := s1.mCacheLocation ++ "/" ++ "ambience-" ++ name
  { s1 with
    mFullImage := some file
    fs := QFile.openWriteOnly s1.paths s1.fs file }

/-- The slot `onSaveFullImageFinished` (lines 199-214). -/
def onSaveFullImageFinished (s : AmbienceManager) : Option AmbienceManager :=
  match s.mFullImageReply with
  | none => none
  | some r =>
    let s1 := s.disconnect r Slot.onSaveFullImageFinished
    match s1.reply r with
    | none => none
    | some rep =>
      let saved : Option AmbienceManager :=
        if !rep.error then
          match s1.mFullImage with
          | none => none
          | some file =>
            let s1a := { s1 with fs := QFile.write s1.paths s1.fs file rep.readAll }
            let s1b := s1a.emit (Effect.saveFullImageSucceeded file)
            some { s1b with mFullImage := none }
        else
          some s1
      match saved with
      | none => none
      | some s2 => some { s2.deleteLater r with mFullImageReply := none }

end AmbienceManager

/-- What can happen to a manager: a call of one of its public member functions, or the
network finishing an in-flight reply with the given error flag and data. -/
inductive Action
  | saveThumbnail (fileUrl : QUrl) (name : QString)
  | saveFullImage (fileUrl : QUrl) (name : QString)
  | saveImageToGallery (name : QString)
  | saveImageToGalleryAndApplyAmbience (name : QString)
  | finished (reply : Nat) (error : Bool) (data : QByteArray)
  deriving DecidableEq, Repr

/-- The network finishes reply `r`: the reply must be alive and in flight; it records its
result and its `finished` signal runs the slot still connected to it. -/
def finished (qt : QtLib) (s : AmbienceManager) (r : Nat) (error : Bool) (data : QByteArray) :
    Option AmbienceManager :=
  match s.reply r with
  | none => none
  | some rep =>
    if rep.result.isSome then
      none
    else
      let s1 := s.setFinished r error data
      if rep.connected then
        match rep.slot with
        | Slot.onSaveThumbnailFinished => s1.onSaveThumbnailFinished qt
        | Slot.onSaveFullImageFinished => s1.onSaveFullImageFinished
      else
        some s1

/-- One action; `none` when the action cannot happen (the reply is not in flight) or when the
code dereferences a null or deleted pointer or dequeues from an empty queue. -/
def step (qt : QtLib) (s : AmbienceManager) : Action → Option AmbienceManager
  | Action.saveThumbnail fileUrl name => s.saveThumbnail fileUrl name
  | Action.saveFullImage fileUrl name => some (s.saveFullImage fileUrl name)
  | Action.saveImageToGallery name => some (s.saveImageToGallery name).2
  | Action.saveImageToGalleryAndApplyAmbience name =>
    some (s.saveImageToGalleryAndApplyAmbience qt name).2
  | Action.finished r error data => finished qt s r error data

/-- A sequence of actions, one after the other. -/
def run (qt : QtLib) (s : AmbienceManager) : List Action → Option AmbienceManager
  | [] => some s
  | a :: as => (step qt s a).bind (fun s1 => run qt s1 as)

/-- The states a manager can be in: those a sequence of actions leads to from a freshly
constructed manager. -/
def Reachable (qt : QtLib) (s : AmbienceManager) : Prop :=
  ∃ pictureLocation cacheLocation paths fs actions,
    run qt (AmbienceManager.init pictureLocation cacheLocation paths fs) actions = some s

/-- The thumbnail fetches in flight: the live replies created by `saveNextThumbnail` that
have not finished. -/
def thumbnailsInFlight (s : AmbienceManager) : List QNetworkReply :=
  s.mNam.filter (fun r => r.slot == Slot.onSaveThumbnailFinished && r.result.isNone)

/-- The URLs of the fetches started, in order. -/
def fetches : List Effect → List QUrl
  | [] => []
  | Effect.get url :: t => url :: fetches t
  | _ :: t => fetches t

/-- The signals emitted, in order. -/
def signals (trace : List Effect) : List Effect :=
  trace.filter (fun e =>
    match e with
    | Effect.saveThumbnailSucceeded _ => true
    | Effect.saveFullImageSucceeded _ => true
    | Effect.saveImageToGallerySucceeded => true
    | _ => false)

/-- The calls made to the external ambience service, in order. -/
def serviceCalls (trace : List Effect) : List Effect :=
  trace.filter (fun e =>
    match e with
    | Effect.createAmbience _ => true
    | Effect.setAmbience _ => true
    | _ => false)

/-- The reply objects are in order: ids are handed out once, in increasing order, and the
reply `mFullImageReply` points to came from `saveFullImage`, with `mFullImage` the file of
the request it serves. -/
structure RepliesOk (s : AmbienceManager) : Prop where
  fresh : ∀ x ∈ s.mNam, x.id < s.nextReply
  nodup : (s.mNam.map (fun x => x.id)).Nodup
  full : ∀ k, s.mFullImageReply = some k →
    k < s.nextReply ∧ ∀ x ∈ s.mNam, x.id = k →
      x.slot = Slot.onSaveFullImageFinished ∧
        s.mFullImage = some (s.mCacheLocation ++ "/" ++ "ambience-" ++ x.name)

/-- The invariant of the thumbnail pipeline: every live thumbnail reply is the one
`mThumbnailReply` points to, it is in flight and connected, and `mThumbnail` is the file of
the request it serves; a tracked reply is alive and its destination file is open; and
nothing waits in the queue while no reply is tracked. -/
structure Inv (s : AmbienceManager) : Prop where
  replies : RepliesOk s
  thumb : ∀ x ∈ s.mNam, x.slot = Slot.onSaveThumbnailFinished →
    s.mThumbnailReply = some x.id ∧ x.result = none ∧ x.connected = true ∧
      s.mThumbnail = some (s.mCacheLocation ++ "/" ++ x.name)
  tracked : ∀ k, s.mThumbnailReply = some k →
    (∃ x ∈ s.mNam, x.id = k ∧ x.slot = Slot.onSaveThumbnailFinished) ∧ s.mThumbnail ≠ none
  idle : s.mThumbnailReply = none → s.mThumbnailQueue = []

/-- Two states that agree on everything the invariant looks at (the second may have dropped
its full-image reply pointer and file). -/
structure SameReplies (s s1 : AmbienceManager) : Prop where
  mNam : s1.mNam = s.mNam
  nextReply : s1.nextReply = s.nextReply
  mThumbnailReply : s1.mThumbnailReply = s.mThumbnailReply
  mThumbnail : s1.mThumbnail = s.mThumbnail
  mThumbnailQueue : s1.mThumbnailQueue = s.mThumbnailQueue
  mCacheLocation : s1.mCacheLocation = s.mCacheLocation
  mFullImageReply : s1.mFullImageReply = none ∨
    (s1.mFullImageReply = s.mFullImageReply ∧ s1.mFullImage = s.mFullImage)
  mSavedFullImages : ∀ p ∈ s.mSavedFullImages, p ∈ s1.mSavedFullImages

/-- No thumbnail fetch: no live thumbnail reply and none tracked. -/
structure Quiet (s : AmbienceManager) : Prop where
  replies : RepliesOk s
  none_alive : ∀ x ∈ s.mNam, x.slot ≠ Slot.onSaveThumbnailFinished
  untracked : s.mThumbnailReply = none

/-- The full-image slot refers to the fetch `r` with destination `file`: `mFullImageReply`
points to `r`, which is alive, in flight and connected, and `mFullImage` is `file`. -/
def FullImageTracked (s : AmbienceManager) (r : Nat) (file : QString) : Prop :=
  s.mFullImageReply = some r ∧ s.mFullImage = some file ∧
    ∃ rep, s.reply r = some rep ∧ rep.result = none ∧ rep.connected = true ∧
      rep.slot = Slot.onSaveFullImageFinished

/-- One `saveThumbnail` call per request, in order. -/
def saveThumbnailCalls (requests : List (QUrl × QString)) : List Action :=
  requests.map (fun r => Action.saveThumbnail r.1 r.2)

/-- The network finishing the replies `k`, `k + 1`, ... one after the other, each with the
given error flag and data. -/
def completions : Nat → List (Bool × QByteArray) → List Action
  | _, [] => []
  | k, c :: cs => Action.finished k c.1 c.2 :: completions (k + 1) cs

/-- One `saveThumbnailSucceeded` per request whose fetch finished without error, in request
order, each with the base name of the request's file in the cache directory. -/
def thumbnailSavedEvents (cacheLocation : QString) :
    List (QUrl × QString) → List (Bool × QByteArray) → List Effect
  | r :: requests, c :: cs =>
    (if c.1 then []
     else [Effect.saveThumbnailSucceeded (QFileInfo.fileName (cacheLocation ++ "/" ++ r.2))]) ++
      thumbnailSavedEvents cacheLocation requests cs
  | _, _ => []

/-- The thumbnail pipeline is fetching the request `(url, name)` through reply `k`, with the
requests `queue` waiting; the other live replies, `others`, are older full-image replies. -/
structure Fetching (s : AmbienceManager) (cacheLocation : QString)
    (others : List QNetworkReply) (k : Nat) (url : QUrl) (name : QString)
    (queue : List (QUrl × QString)) : Prop where
  reply : s.mThumbnailReply = some k
  nam : s.mNam = others ++ [{ id := k, url := url, name := name,
                              slot := Slot.onSaveThumbnailFinished, connected := true,
                              result := none }]
  old : ∀ x ∈ others, x.id < k ∧ x.slot = Slot.onSaveFullImageFinished
  next : s.nextReply = k + 1
  waiting : s.mThumbnailQueue = queue
  file : s.mThumbnail = some (cacheLocation ++ "/" ++ name)
  cache : s.mCacheLocation = cacheLocation

/-- A sample of the Qt computations, for the concrete runs below. -/
def sampleQt : QtLib :=
  { fromLocalFile := fun path => "file://" ++ path
    scaledThumbnail := fun _ data => data }

/-- Sample paths: `/cache/./ambience-x` leads to the file `/cache/ambience-x`, every other
path is canonical, and files can be created everywhere. -/
def samplePaths : Paths :=
  { canonical := fun p => if p = "/cache/./ambience-x" then "/cache/ambience-x" else p
    writable := fun _ => true }

/-- A fresh manager on an empty filesystem. -/
def sampleManager : AmbienceManager :=
  AmbienceManager.init "/pictures" "/cache" samplePaths (fun _ => none)

/-- The fresh manager after `saveThumbnail` for `a` and then for `b`: `a` is being fetched,
`b` waits in the queue. -/
def sampleBusy : AmbienceManager :=
  (run sampleQt sampleManager
    [Action.saveThumbnail "http://x/a.png" "a", Action.saveThumbnail "http://x/b.png" "b"]).getD
    sampleManager

/-- The fresh manager after `saveThumbnail` for `a`: `a` is being fetched. -/
def sampleFetching : AmbienceManager :=
  (run sampleQt sampleManager [Action.saveThumbnail "http://x/a.png" "a"]).getD sampleManager

/-! ## Basic facts about the embedding -/

/-- In a directory, the base name of a file whose name has no `/` is that name. -/
theorem fileName_in_directory (dir name : QString) (h : '/' ∉ name.data) :
    QFileInfo.fileName (dir ++ "/" ++ name) = name := by
  unfold QFileInfo.fileName
  have hdata : (dir ++ "/" ++ name).data.reverse =
      name.data.reverse ++ ('/' :: dir.data.reverse) := by
    simp [String.data_append]
  rw [hdata, List.takeWhile_append_of_pos]
  · simp
  · intro c hc
    have hc1 : c ∈ name.data := List.mem_reverse.mp hc
    have : c ≠ '/' := fun heq => h (heq ▸ hc1)
    simpa using this

namespace QFile

end QFile

namespace AmbienceManager

end AmbienceManager

/-! ## Reply objects in `mNam` -/

theorem find_map_id (f : QNetworkReply → QNetworkReply) (hf : ∀ x, (f x).id = x.id)
    (l : List QNetworkReply) (r : Nat) :
    (l.map f).find? (fun x => x.id == r) = (l.find? (fun x => x.id == r)).map f := by
  induction l with
  | nil => rfl
  | cons a l ih =>
    simp only [List.map_cons, List.find?_cons, hf]
    cases a.id == r
    · simpa using ih
    · rfl

theorem filter_map_id (f : QNetworkReply → QNetworkReply) (r : Nat)
    (hf : ∀ x, (f x).id = x.id) (hid : ∀ x, x.id ≠ r → f x = x) (l : List QNetworkReply) :
    (l.map f).filter (fun x => !(x.id == r)) = l.filter (fun x => !(x.id == r)) := by
  induction l with
  | nil => rfl
  | cons a l ih =>
    simp only [List.map_cons, List.filter_cons, hf, ih]
    by_cases h : a.id = r
    · simp [h]
    · simp [h, hid a h]

theorem find_id {l : List QNetworkReply} {r : Nat} {rep : QNetworkReply}
    (h : l.find? (fun x => x.id == r) = some rep) : rep.id = r ∧ rep ∈ l := by
  have h1 := List.find?_some h
  exact ⟨by simpa using h1, List.mem_of_find?_eq_some h⟩

namespace AmbienceManager

theorem reply_disconnect (s : AmbienceManager) (r k : Nat) (slot : Slot) :
    (s.disconnect r slot).reply k =
      (s.reply k).map (fun x =>
        if x.id == r && x.slot == slot then { x with connected := false } else x) := by
  unfold reply disconnect
  exact find_map_id _ (by intro x; split <;> rfl) _ _

theorem reply_setFinished (s : AmbienceManager) (r k : Nat) (e : Bool) (d : QByteArray) :
    (s.setFinished r e d).reply k =
      (s.reply k).map (fun x => if x.id == r then { x with result := some (e, d) } else x) := by
  unfold reply setFinished
  exact find_map_id _ (by intro x; split <;> rfl) _ _

theorem deleteLater_disconnect (s : AmbienceManager) (r : Nat) (slot : Slot) :
    (s.disconnect r slot).deleteLater r = s.deleteLater r := by
  unfold deleteLater disconnect
  simp only
  rw [filter_map_id _ r (by intro x; split <;> rfl) (by intro x hx; simp [hx])]

theorem deleteLater_setFinished (s : AmbienceManager) (r : Nat) (e : Bool) (d : QByteArray) :
    (s.setFinished r e d).deleteLater r = s.deleteLater r := by
  unfold deleteLater setFinished
  simp only
  rw [filter_map_id _ r (by intro x; split <;> rfl) (by intro x hx; simp [hx])]

/-- The slot at a reply that ended in error: nothing is written or emitted. -/
theorem onSaveThumbnailFinished_error (qt : QtLib) (s : AmbienceManager) (r : Nat)
    (rep : QNetworkReply) (hr : s.mThumbnailReply = some r) (hrep : s.reply r = some rep)
    (herr : rep.error = true) :
    s.onSaveThumbnailFinished qt =
      if !s.mThumbnailQueue.isEmpty then
        saveNextThumbnail { s.deleteLater r with mThumbnailReply := none }
      else
        some { s.deleteLater r with mThumbnailReply := none } := by
  unfold onSaveThumbnailFinished
  rw [hr]
  simp only [reply_disconnect, hrep, Option.map_some']
  have herr2 : QNetworkReply.error (if (rep.id == r && rep.slot == Slot.onSaveThumbnailFinished) = true
      then { rep with connected := false } else rep) = true := by
    split <;> exact herr
  simp only [herr2, Bool.not_true, Bool.false_eq_true, if_false, deleteLater_disconnect]
  rfl

/-- The slot at a reply that ended without error: the thumbnail is written and announced. -/
theorem onSaveThumbnailFinished_ok (qt : QtLib) (s : AmbienceManager) (r : Nat)
    (rep : QNetworkReply) (file : QString)
    (hr : s.mThumbnailReply = some r) (hrep : s.reply r = some rep)
    (herr : rep.error = false) (hfile : s.mThumbnail = some file) :
    s.onSaveThumbnailFinished qt =
      if !s.mThumbnailQueue.isEmpty then
        saveNextThumbnail { s.deleteLater r with
          mThumbnailReply := none
          mThumbnail := none
          fs := QFile.write s.paths s.fs file (qt.scaledThumbnail file rep.readAll)
          trace := s.trace ++ [Effect.saveThumbnailSucceeded (QFileInfo.fileName file)] }
      else
        some { s.deleteLater r with
          mThumbnailReply := none
          mThumbnail := none
          fs := QFile.write s.paths s.fs file (qt.scaledThumbnail file rep.readAll)
          trace := s.trace ++ [Effect.saveThumbnailSucceeded (QFileInfo.fileName file)] } := by
  unfold onSaveThumbnailFinished
  rw [hr]
  simp only [reply_disconnect, hrep, Option.map_some']
  have herr2 : QNetworkReply.error (if (rep.id == r && rep.slot == Slot.onSaveThumbnailFinished) = true
      then { rep with connected := false } else rep) = false := by
    split <;> exact herr
  have hread : QNetworkReply.readAll (if (rep.id == r && rep.slot == Slot.onSaveThumbnailFinished) = true
      then { rep with connected := false } else rep) = rep.readAll := by
    split <;> rfl
  have hfile2 : (s.disconnect r Slot.onSaveThumbnailFinished).mThumbnail = some file := hfile
  simp only [herr2, hread, hfile2, Bool.not_false, if_true]
  have hnam := congrArg AmbienceManager.mNam (deleteLater_disconnect s r Slot.onSaveThumbnailFinished)
  split <;> split
  · refine congrArg saveNextThumbnail ?_
    ext1 <;> first | rfl | exact hnam
  · rename_i h1 h2
    exact absurd h1 h2
  · rename_i h1 h2
    exact absurd h2 h1
  · refine congrArg some ?_
    ext1 <;> first | rfl | exact hnam

end AmbienceManager

namespace AmbienceManager

/-- The network finishing the tracked thumbnail reply with an error. -/
theorem finished_thumbnail_error (qt : QtLib) (s : AmbienceManager) (r : Nat)
    (rep : QNetworkReply) (d : QByteArray)
    (hr : s.mThumbnailReply = some r) (hrep : s.reply r = some rep)
    (hres : rep.result = none) (hconn : rep.connected = true)
    (hslot : rep.slot = Slot.onSaveThumbnailFinished) :
    finished qt s r true d =
      if !s.mThumbnailQueue.isEmpty then
        saveNextThumbnail { s.deleteLater r with mThumbnailReply := none }
      else
        some { s.deleteLater r with mThumbnailReply := none } := by
  have hid := (find_id hrep).1
  unfold finished
  rw [hrep]
  simp only [hres, hconn, hslot, Option.isSome_none, Bool.false_eq_true, if_false, if_true]
  rw [onSaveThumbnailFinished_error qt (s.setFinished r true d) r
    { rep with result := some (true, d) } hr (by rw [reply_setFinished, hrep]; simp [hid]) rfl]
  rw [deleteLater_setFinished]
  rfl

/-- The network finishing the tracked thumbnail reply without error. -/
theorem finished_thumbnail_ok (qt : QtLib) (s : AmbienceManager) (r : Nat)
    (rep : QNetworkReply) (d : QByteArray) (file : QString)
    (hr : s.mThumbnailReply = some r) (hrep : s.reply r = some rep)
    (hres : rep.result = none) (hconn : rep.connected = true)
    (hslot : rep.slot = Slot.onSaveThumbnailFinished) (hfile : s.mThumbnail = some file) :
    finished qt s r false d =
      if !s.mThumbnailQueue.isEmpty then
        saveNextThumbnail { s.deleteLater r with
          mThumbnailReply := none
          mThumbnail := none
          fs := QFile.write s.paths s.fs file (qt.scaledThumbnail file d)
          trace := s.trace ++ [Effect.saveThumbnailSucceeded (QFileInfo.fileName file)] }
      else
        some { s.deleteLater r with
          mThumbnailReply := none
          mThumbnail := none
          fs := QFile.write s.paths s.fs file (qt.scaledThumbnail file d)
          trace := s.trace ++ [Effect.saveThumbnailSucceeded (QFileInfo.fileName file)] } := by
  have hid := (find_id hrep).1
  unfold finished
  rw [hrep]
  simp only [hres, hconn, hslot, Option.isSome_none, Bool.false_eq_true, if_false, if_true]
  rw [onSaveThumbnailFinished_ok qt (s.setFinished r false d) r
    { rep with result := some (false, d) } file hr
    (by rw [reply_setFinished, hrep]; simp [hid]) rfl hfile]
  rw [deleteLater_setFinished]
  rfl

theorem saveNextThumbnail_cons (s : AmbienceManager) (u : QUrl) (n : QString)
    (q : List (QUrl × QString)) (hq : s.mThumbnailQueue = (u, n) :: q) :
    s.saveNextThumbnail = some
      { s with
        mThumbnailQueue := q
        mThumbnailReply := some s.nextReply
        mNam := s.mNam ++ [{ id := s.nextReply, url := u, name := n,
                             slot := Slot.onSaveThumbnailFinished, connected := true,
                             result := none }]
        nextReply := s.nextReply + 1
        trace := s.trace ++ [Effect.get u]
        mThumbnail := some (s.mCacheLocation ++ "/" ++ n)
        fs := QFile.openWriteOnly s.paths s.fs (s.mCacheLocation ++ "/" ++ n) } := by
  unfold saveNextThumbnail
  rw [hq]
  rfl

end AmbienceManager

/-! ## The invariant of the thumbnail pipeline -/

theorem nodup_ids_filter {l : List QNetworkReply} (p : QNetworkReply → Bool)
    (h : (l.map (fun x => x.id)).Nodup) : ((l.filter p).map (fun x => x.id)).Nodup :=
  List.Nodup.sublist (List.Sublist.map _ (List.filter_sublist l)) h

theorem nodup_ids_map {l : List QNetworkReply} (g : QNetworkReply → QNetworkReply)
    (hg : ∀ x, (g x).id = x.id) (h : (l.map (fun x => x.id)).Nodup) :
    ((l.map g).map (fun x => x.id)).Nodup := by
  rw [List.map_map]
  have : ((fun x : QNetworkReply => x.id) ∘ g) = (fun x => x.id) := by
    funext x
    exact hg x
  rw [this]
  exact h

theorem nodup_ids_append {l : List QNetworkReply} {new : QNetworkReply} {n : Nat}
    (hfresh : ∀ x ∈ l, x.id < n) (hid : new.id = n)
    (h : (l.map (fun x => x.id)).Nodup) : ((l ++ [new]).map (fun x => x.id)).Nodup := by
  rw [List.map_append, List.nodup_append]
  refine ⟨h, by simp, ?_⟩
  intro a ha hb
  obtain ⟨x, hx, rfl⟩ := List.mem_map.mp ha
  simp only [List.map_cons, List.map_nil, List.mem_singleton] at hb
  have := hfresh x hx
  omega

theorem eq_of_same_id {l : List QNetworkReply} (h : (l.map (fun x => x.id)).Nodup)
    {x y : QNetworkReply} (hx : x ∈ l) (hy : y ∈ l) (hxy : x.id = y.id) : x = y :=
  List.inj_on_of_nodup_map h hx hy hxy

namespace RepliesOk

theorem congr_replies {s : AmbienceManager} (h : RepliesOk s) (s1 : AmbienceManager)
    (hn : s1.mNam = s.mNam) (hnext : s1.nextReply = s.nextReply)
    (hfull : s1.mFullImageReply = none ∨
      (s1.mFullImageReply = s.mFullImageReply ∧ s1.mFullImage = s.mFullImage ∧
        s1.mCacheLocation = s.mCacheLocation)) :
    RepliesOk s1 := by
  refine ⟨?_, ?_, ?_⟩
  · rw [hn, hnext]
    exact h.fresh
  · rw [hn]
    exact h.nodup
  · intro k hk
    rw [hn, hnext]
    rcases hfull with h1 | h1
    · rw [h1] at hk
      cases hk
    · rw [h1.1] at hk
      rw [h1.2.1, h1.2.2]
      exact h.full k hk

theorem of_same {s s1 : AmbienceManager} (h : RepliesOk s) (hs : SameReplies s s1) :
    RepliesOk s1 := by
  refine h.congr_replies s1 hs.mNam hs.nextReply ?_
  rcases hs.mFullImageReply with h1 | h1
  · exact Or.inl h1
  · exact Or.inr ⟨h1.1, h1.2, hs.mCacheLocation⟩

theorem map_replies {s : AmbienceManager} (h : RepliesOk s) (g : QNetworkReply → QNetworkReply)
    (hid : ∀ x, (g x).id = x.id) (hslot : ∀ x, (g x).slot = x.slot)
    (hname : ∀ x, (g x).name = x.name) :
    RepliesOk { s with mNam := s.mNam.map g } := by
  refine ⟨?_, nodup_ids_map g hid h.nodup, ?_⟩
  · intro x hx
    obtain ⟨y, hy, rfl⟩ := List.mem_map.mp hx
    rw [hid]
    exact h.fresh y hy
  · intro k hk
    refine ⟨(h.full k hk).1, ?_⟩
    intro x hx hxk
    obtain ⟨y, hy, rfl⟩ := List.mem_map.mp hx
    rw [hslot, hname]
    rw [hid] at hxk
    exact (h.full k hk).2 y hy hxk

theorem filter_replies {s : AmbienceManager} (h : RepliesOk s) (p : QNetworkReply → Bool) :
    RepliesOk { s with mNam := s.mNam.filter p } := by
  refine ⟨?_, nodup_ids_filter p h.nodup, ?_⟩
  · intro x hx
    exact h.fresh x (List.mem_filter.mp hx).1
  · intro k hk
    refine ⟨(h.full k hk).1, ?_⟩
    intro x hx hxk
    exact (h.full k hk).2 x (List.mem_filter.mp hx).1 hxk

theorem get_reply {s : AmbienceManager} (h : RepliesOk s) (url : QUrl) (name : QString)
    (slot : Slot) : RepliesOk (s.get url name slot) := by
  refine ⟨?_, nodup_ids_append h.fresh rfl h.nodup, ?_⟩
  · intro x hx
    rcases List.mem_append.mp hx with hx | hx
    · exact Nat.lt_succ_of_lt (h.fresh x hx)
    · rw [List.mem_singleton.mp hx]
      exact Nat.lt_succ_self _
  · intro k hk
    have hk1 := h.full k hk
    refine ⟨Nat.lt_succ_of_lt hk1.1, ?_⟩
    intro x hx hxk
    rcases List.mem_append.mp hx with hx | hx
    · exact hk1.2 x hx hxk
    · rw [List.mem_singleton.mp hx] at hxk
      have : s.nextReply = k := hxk
      omega

end RepliesOk

namespace Inv

theorem of_same_replies {s s1 : AmbienceManager} (h : Inv s) (hs : SameReplies s s1) : Inv s1 := by
  refine ⟨h.replies.of_same hs, ?_, ?_, ?_⟩
  · rw [hs.mNam, hs.mThumbnailReply, hs.mThumbnail, hs.mCacheLocation]
    exact h.thumb
  · rw [hs.mNam, hs.mThumbnailReply, hs.mThumbnail]
    exact h.tracked
  · rw [hs.mThumbnailReply, hs.mThumbnailQueue]
    exact h.idle

/-- A map over the replies that leaves the thumbnail replies alone keeps the invariant. -/
theorem map_others {s : AmbienceManager} (h : Inv s) (g : QNetworkReply → QNetworkReply)
    (hid : ∀ x, (g x).id = x.id) (hslot : ∀ x, (g x).slot = x.slot)
    (hname : ∀ x, (g x).name = x.name)
    (hthumb : ∀ x ∈ s.mNam, x.slot = Slot.onSaveThumbnailFinished → g x = x) :
    Inv { s with mNam := s.mNam.map g } := by
  refine ⟨h.replies.map_replies g hid hslot hname, ?_, ?_, h.idle⟩
  · intro x hx hxs
    obtain ⟨y, hy, rfl⟩ := List.mem_map.mp hx
    rw [hslot] at hxs
    rw [hthumb y hy hxs]
    exact h.thumb y hy hxs
  · intro k hk
    obtain ⟨⟨y, hy, hyk, hys⟩, hfile⟩ := h.tracked k hk
    refine ⟨⟨y, ?_, hyk, hys⟩, hfile⟩
    apply List.mem_map.mpr
    exact ⟨y, hy, hthumb y hy hys⟩

/-- Dropping replies that are not thumbnail replies keeps the invariant. -/
theorem filter_others {s : AmbienceManager} (h : Inv s) (p : QNetworkReply → Bool)
    (hthumb : ∀ x ∈ s.mNam, x.slot = Slot.onSaveThumbnailFinished → p x = true) :
    Inv { s with mNam := s.mNam.filter p } := by
  refine ⟨h.replies.filter_replies p, ?_, ?_, h.idle⟩
  · intro x hx hxs
    exact h.thumb x (List.mem_filter.mp hx).1 hxs
  · intro k hk
    obtain ⟨⟨y, hy, hyk, hys⟩, hfile⟩ := h.tracked k hk
    exact ⟨⟨y, List.mem_filter.mpr ⟨hy, hthumb y hy hys⟩, hyk, hys⟩, hfile⟩

theorem setFinished_full {s : AmbienceManager} (h : Inv s) {r : Nat} {rep : QNetworkReply}
    (hrep : s.reply r = some rep) (hslot : rep.slot = Slot.onSaveFullImageFinished)
    (e : Bool) (d : QByteArray) : Inv (s.setFinished r e d) := by
  obtain ⟨hid, hmem⟩ := find_id hrep
  refine h.map_others _ (by intro x; split <;> rfl) (by intro x; split <;> rfl)
    (by intro x; split <;> rfl) ?_
  intro x hx hxs
  have hne : x.id ≠ r := by
    intro hxr
    have := eq_of_same_id h.replies.nodup hx hmem (hxr.trans hid.symm)
    rw [this, hslot] at hxs
    cases hxs
  simp [hne]

theorem disconnect_full {s : AmbienceManager} (h : Inv s) (r : Nat) :
    Inv (s.disconnect r Slot.onSaveFullImageFinished) := by
  refine h.map_others _ (by intro x; split <;> rfl) (by intro x; split <;> rfl)
    (by intro x; split <;> rfl) ?_
  intro x _ hxs
  simp [hxs]

theorem deleteLater_full {s : AmbienceManager} (h : Inv s) {r : Nat}
    (hr : s.mFullImageReply = some r) : Inv (s.deleteLater r) := by
  refine h.filter_others _ ?_
  intro x hx hxs
  have hne : x.id ≠ r := by
    intro hxr
    have := ((h.replies.full r hr).2 x hx hxr).1
    rw [this] at hxs
    cases hxs
  simp [hne]

theorem after_saveFullImage {s : AmbienceManager} (h : Inv s) (url : QUrl) (name : QString) :
    Inv (s.saveFullImage url name) := by
  refine ⟨⟨?_, ?_, ?_⟩, ?_, ?_, h.idle⟩
  · exact (h.replies.get_reply url name Slot.onSaveFullImageFinished).fresh
  · exact (h.replies.get_reply url name Slot.onSaveFullImageFinished).nodup
  · intro k hk
    have hk1 : s.nextReply = k := Option.some.inj hk
    refine ⟨?_, ?_⟩
    · show k < s.nextReply + 1
      omega
    · intro x hx hxk
      rcases List.mem_append.mp hx with hx | hx
      · have := h.replies.fresh x hx
        omega
      · rw [List.mem_singleton.mp hx]
        exact ⟨rfl, rfl⟩
  · intro x hx hxs
    rcases List.mem_append.mp hx with hx | hx
    · exact h.thumb x hx hxs
    · rw [List.mem_singleton.mp hx] at hxs
      cases hxs
  · intro k hk
    obtain ⟨⟨y, hy, hyk, hys⟩, hfile⟩ := h.tracked k hk
    exact ⟨⟨y, List.mem_append.mpr (Or.inl hy), hyk, hys⟩, hfile⟩

theorem toQuiet {s : AmbienceManager} (h : Inv s) (hr : s.mThumbnailReply = none) :
    Quiet s := by
  refine ⟨h.replies, ?_, hr⟩
  intro x hx hxs
  have := (h.thumb x hx hxs).1
  rw [hr] at this
  cases this

theorem quiet_after {s : AmbienceManager} (h : Inv s) {r : Nat}
    (hr : s.mThumbnailReply = some r) :
    Quiet { s.deleteLater r with mThumbnailReply := none } := by
  refine ⟨?_, ?_, rfl⟩
  · exact (h.replies.filter_replies _).congr_replies _ rfl rfl (Or.inr ⟨rfl, rfl, rfl⟩)
  · intro x hx hxs
    have hx1 := List.mem_filter.mp hx
    have := (h.thumb x hx1.1 hxs).1
    rw [hr] at this
    have hxr : r = x.id := Option.some.inj this
    simp [hxr] at hx1

end Inv

namespace Quiet

theorem congr_quiet {s : AmbienceManager} (h : Quiet s) (s1 : AmbienceManager)
    (hn : s1.mNam = s.mNam) (hnext : s1.nextReply = s.nextReply)
    (hr : s1.mThumbnailReply = s.mThumbnailReply)
    (hfull : s1.mFullImageReply = none ∨
      (s1.mFullImageReply = s.mFullImageReply ∧ s1.mFullImage = s.mFullImage ∧
        s1.mCacheLocation = s.mCacheLocation)) :
    Quiet s1 := by
  refine ⟨h.replies.congr_replies s1 hn hnext hfull, ?_, ?_⟩
  · rw [hn]
    exact h.none_alive
  · rw [hr]
    exact h.untracked

theorem inv_idle {s : AmbienceManager} (h : Quiet s) (hq : s.mThumbnailQueue = []) :
    Inv s := by
  refine ⟨h.replies, ?_, ?_, fun _ => hq⟩
  · intro x hx hxs
    exact absurd hxs (h.none_alive x hx)
  · intro k hk
    rw [h.untracked] at hk
    cases hk

theorem inv_next {s s1 : AmbienceManager} (hs1 : s.saveNextThumbnail = some s1)
    (h : Quiet s) : Inv s1 := by
  unfold AmbienceManager.saveNextThumbnail at hs1
  split at hs1
  · cases hs1
  · rename_i t rest hq
    simp only [Option.some.injEq] at hs1
    subst hs1
    have hget := (h.replies.congr_replies { s with mThumbnailQueue := rest } rfl rfl
      (Or.inr ⟨rfl, rfl, rfl⟩)).get_reply t.1 t.2 Slot.onSaveThumbnailFinished
    refine ⟨⟨hget.fresh, hget.nodup, hget.full⟩, ?_, ?_, ?_⟩
    · intro x hx hxs
      rcases List.mem_append.mp hx with hx | hx
      · exact absurd hxs (h.none_alive x hx)
      · rw [List.mem_singleton.mp hx]
        exact ⟨rfl, rfl, rfl, rfl⟩
    · intro k hk
      have hk1 : s.nextReply = k := Option.some.inj hk
      refine ⟨⟨_, List.mem_append.mpr (Or.inr (List.mem_singleton.mpr rfl)), hk1, rfl⟩, ?_⟩
      simp
    · intro hk
      cases hk

end Quiet

namespace AmbienceManager

theorem onSaveFullImageFinished_some {s s1 : AmbienceManager}
    (h : s.onSaveFullImageFinished = some s1) :
    ∃ r, s.mFullImageReply = some r ∧
      SameReplies ((s.disconnect r Slot.onSaveFullImageFinished).deleteLater r) s1 := by
  unfold onSaveFullImageFinished at h
  split at h
  · cases h
  · rename_i r hr
    refine ⟨r, hr, ?_⟩
    simp only at h
    split at h
    · cases h
    · split at h
      · cases h
      · rename_i s2 hs2
        simp only [Option.some.injEq] at h
        subst h
        split at hs2
        · split at hs2
          · cases hs2
          · simp only [Option.some.injEq] at hs2
            subst hs2
            exact ⟨rfl, rfl, rfl, rfl, rfl, rfl, Or.inl rfl, fun _ hp => hp⟩
        · simp only [Option.some.injEq] at hs2
          subst hs2
          exact ⟨rfl, rfl, rfl, rfl, rfl, rfl, Or.inl rfl, fun _ hp => hp⟩

end AmbienceManager

namespace AmbienceManager

theorem saveImageToGallery_same (s : AmbienceManager) (n : QString) :
    SameReplies s (s.saveImageToGallery n).2 := by
  unfold saveImageToGallery
  split
  · exact ⟨rfl, rfl, rfl, rfl, rfl, rfl, Or.inr ⟨rfl, rfl⟩, fun _ hp => hp⟩
  · exact ⟨rfl, rfl, rfl, rfl, rfl, rfl, Or.inr ⟨rfl, rfl⟩,
      fun _ hp => List.mem_append.mpr (Or.inl hp)⟩

theorem saveImageToGalleryAndApplyAmbience_same (qt : QtLib) (s : AmbienceManager)
    (n : QString) : SameReplies s (s.saveImageToGalleryAndApplyAmbience qt n).2 := by
  have h := saveImageToGallery_same s n
  unfold saveImageToGalleryAndApplyAmbience
  simp only
  split
  · exact h
  · exact ⟨h.mNam, h.nextReply, h.mThumbnailReply, h.mThumbnail, h.mThumbnailQueue,
      h.mCacheLocation, h.mFullImageReply, h.mSavedFullImages⟩

end AmbienceManager

theorem inv_step {qt : QtLib} {s s1 : AmbienceManager} {a : Action} (hinv : Inv s)
    (h : step qt s a = some s1) : Inv s1 := by
  cases a with
  | saveThumbnail u n =>
    simp only [step, AmbienceManager.saveThumbnail] at h
    split at h
    · rename_i hnone
      have hnone1 : s.mThumbnailReply = none := by simpa using hnone
      exact Quiet.inv_next h
        ((hinv.toQuiet hnone1).congr_quiet _ rfl rfl rfl (Or.inr ⟨rfl, rfl, rfl⟩))
    · rename_i hsome
      simp only [Option.some.injEq] at h
      subst h
      refine ⟨hinv.replies.congr_replies _ rfl rfl (Or.inr ⟨rfl, rfl, rfl⟩), hinv.thumb,
        hinv.tracked, ?_⟩
      intro hnone
      have hnone1 : s.mThumbnailReply = none := hnone
      simp [hnone1] at hsome
  | saveFullImage u n =>
    simp only [step, Option.some.injEq] at h
    subst h
    exact hinv.after_saveFullImage u n
  | saveImageToGallery n =>
    simp only [step, Option.some.injEq] at h
    subst h
    exact hinv.of_same_replies (AmbienceManager.saveImageToGallery_same s n)
  | saveImageToGalleryAndApplyAmbience n =>
    simp only [step, Option.some.injEq] at h
    subst h
    exact hinv.of_same_replies (AmbienceManager.saveImageToGalleryAndApplyAmbience_same qt s n)
  | finished r e d =>
    simp only [step] at h
    cases hrep : s.reply r with
    | none => simp [finished, hrep] at h
    | some rep =>
      obtain ⟨hid, hmem⟩ := find_id hrep
      cases hres : rep.result with
      | some res => simp [finished, hrep, hres] at h
      | none =>
        cases hslot : rep.slot with
        | onSaveThumbnailFinished =>
          obtain ⟨hr, _, hconn, _⟩ := hinv.thumb rep hmem hslot
          rw [hid] at hr
          have hquiet := hinv.quiet_after hr
          cases e with
          | true =>
            rw [AmbienceManager.finished_thumbnail_error qt s r rep d hr hrep hres hconn hslot] at h
            split at h
            · exact Quiet.inv_next h hquiet
            · rename_i hq
              simp only [Option.some.injEq] at h
              subst h
              exact hquiet.inv_idle (by simpa using hq)
          | false =>
            obtain ⟨file, hfile⟩ := Option.ne_none_iff_exists'.mp (hinv.tracked r hr).2
            rw [AmbienceManager.finished_thumbnail_ok qt s r rep d file hr hrep hres hconn hslot
              hfile] at h
            split at h
            · exact Quiet.inv_next h
                (hquiet.congr_quiet _ rfl rfl rfl (Or.inr ⟨rfl, rfl, rfl⟩))
            · rename_i hq
              simp only [Option.some.injEq] at h
              subst h
              refine Quiet.inv_idle ?_ (by simpa using hq)
              exact hquiet.congr_quiet _ rfl rfl rfl (Or.inr ⟨rfl, rfl, rfl⟩)
        | onSaveFullImageFinished =>
          have h1 := hinv.setFinished_full hrep hslot e d
          simp only [finished, hrep, hres, hslot, Option.isSome_none, Bool.false_eq_true,
            if_false] at h
          split at h
          · obtain ⟨r1, hr1, hs⟩ := AmbienceManager.onSaveFullImageFinished_some h
            exact ((h1.disconnect_full r1).deleteLater_full hr1).of_same_replies hs
          · simp only [Option.some.injEq] at h
            subst h
            exact h1

theorem inv_init (pictureLocation cacheLocation : QString) (paths : Paths) (fs : FileSystem) :
    Inv (AmbienceManager.init pictureLocation cacheLocation paths fs) := by
  refine ⟨⟨?_, ?_, ?_⟩, ?_, ?_, fun _ => rfl⟩
  · intro x hx
    cases hx
  · exact List.nodup_nil
  · intro k hk
    cases hk
  · intro x hx
    cases hx
  · intro k hk
    cases hk

theorem inv_run {qt : QtLib} (actions : List Action) {s s1 : AmbienceManager} (hinv : Inv s)
    (h : run qt s actions = some s1) : Inv s1 := by
  induction actions generalizing s with
  | nil =>
    simp only [run, Option.some.injEq] at h
    subst h
    exact hinv
  | cons a as ih =>
    simp only [run, Option.bind_eq_some] at h
    obtain ⟨s2, h1, h2⟩ := h
    exact ih (inv_step hinv h1) h2

theorem reachable_inv {qt : QtLib} {s : AmbienceManager} (h : Reachable qt s) : Inv s := by
  obtain ⟨p, c, paths, fs, actions, hrun⟩ := h
  exact inv_run actions (inv_init p c paths fs) hrun

/-! ## Thumbnail fetches in flight -/

theorem filter_length_le_one {l : List QNetworkReply} (p : QNetworkReply → Bool) (k : Nat)
    (hnodup : (l.map (fun x => x.id)).Nodup) (hp : ∀ x ∈ l, p x = true → x.id = k) :
    (l.filter p).length ≤ 1 := by
  induction l with
  | nil => simp
  | cons a l ih =>
    rw [List.map_cons, List.nodup_cons] at hnodup
    have ih1 := ih hnodup.2 (fun x hx => hp x (List.mem_cons_of_mem a hx))
    by_cases ha : p a = true
    · have hempty : l.filter p = [] := by
        apply List.filter_eq_nil_iff.mpr
        intro x hx hpx
        apply hnodup.1
        apply List.mem_map.mpr
        refine ⟨x, hx, ?_⟩
        rw [hp x (List.mem_cons_of_mem a hx) hpx, hp a (List.mem_cons_self a l) ha]
      simp [List.filter_cons, ha, hempty]
    · simp only [List.filter_cons, ha]
      exact ih1

theorem mem_thumbnailsInFlight {s : AmbienceManager} {x : QNetworkReply} :
    x ∈ thumbnailsInFlight s ↔
      x ∈ s.mNam ∧ x.slot = Slot.onSaveThumbnailFinished ∧ x.result = none := by
  unfold thumbnailsInFlight
  simp [List.mem_filter]

theorem reply_of_mem {s : AmbienceManager} (h : RepliesOk s) {x : QNetworkReply}
    (hx : x ∈ s.mNam) : s.reply x.id = some x := by
  unfold AmbienceManager.reply
  cases hfind : s.mNam.find? (fun y => y.id == x.id) with
  | none =>
    have := List.find?_eq_none.mp hfind x hx
    simp at this
  | some rep =>
    obtain ⟨hid, hmem⟩ := find_id hfind
    rw [eq_of_same_id h.nodup hmem hx hid]

/-- In a state that satisfies the invariant, a thumbnail fetch in flight is the tracked one. -/
theorem Inv.in_flight {s : AmbienceManager} (h : Inv s) {x : QNetworkReply}
    (hx : x ∈ thumbnailsInFlight s) :
    s.mThumbnailReply = some x.id ∧ s.reply x.id = some x ∧ x.result = none ∧
      x.connected = true ∧ x.slot = Slot.onSaveThumbnailFinished ∧
      s.mThumbnail = some (s.mCacheLocation ++ "/" ++ x.name) := by
  obtain ⟨hmem, hslot, hres⟩ := mem_thumbnailsInFlight.mp hx
  obtain ⟨hr, _, hconn, hfile⟩ := h.thumb x hmem hslot
  exact ⟨hr, reply_of_mem h.replies hmem, hres, hconn, hslot, hfile⟩

theorem Inv.in_flight_of_tracked {s : AmbienceManager} (h : Inv s) {k : Nat}
    (hk : s.mThumbnailReply = some k) : thumbnailsInFlight s ≠ [] := by
  obtain ⟨⟨x, hx, _, hslot⟩, _⟩ := h.tracked k hk
  have hres := (h.thumb x hx hslot).2.1
  exact List.ne_nil_of_mem (mem_thumbnailsInFlight.mpr ⟨hx, hslot, hres⟩)

theorem Inv.in_flight_le_one {s : AmbienceManager} (h : Inv s) :
    (thumbnailsInFlight s).length ≤ 1 := by
  cases hr : s.mThumbnailReply with
  | none =>
    have hq := h.toQuiet hr
    have : thumbnailsInFlight s = [] := by
      apply List.filter_eq_nil_iff.mpr
      intro x hx hpx
      have := hq.none_alive x hx
      simp [this] at hpx
    simp [this]
  | some k =>
    apply filter_length_le_one _ k h.replies.nodup
    intro x hx hpx
    simp only [Bool.and_eq_true, beq_iff_eq] at hpx
    have := (h.thumb x hx hpx.1).1
    rw [hr] at this
    exact (Option.some.inj this).symm

theorem signals_append (a b : List Effect) : signals (a ++ b) = signals a ++ signals b := by
  unfold signals
  exact List.filter_append a b

theorem fetches_append (a b : List Effect) : fetches (a ++ b) = fetches a ++ fetches b := by
  induction a with
  | nil => rfl
  | cons e a ih =>
    cases e <;> simp [fetches, ih]

theorem saveNextThumbnail_trace {s s1 : AmbienceManager} (h : s.saveNextThumbnail = some s1) :
    signals s1.trace = signals s.trace := by
  unfold AmbienceManager.saveNextThumbnail at h
  split at h
  · cases h
  · simp only [Option.some.injEq] at h
    subst h
    show signals (s.trace ++ [Effect.get _]) = signals s.trace
    rw [signals_append]
    simp [signals]

theorem saveNextThumbnail_isSome (s : AmbienceManager) (h : s.mThumbnailQueue ≠ []) :
    ∃ s1, s.saveNextThumbnail = some s1 := by
  unfold AmbienceManager.saveNextThumbnail
  split
  · rename_i hq
    exact absurd hq h
  · exact ⟨_, rfl⟩

/-- What finishing a thumbnail fetch in flight does to the signals, in a state that
satisfies the invariant. -/
theorem Inv.finished_in_flight (qt : QtLib) {s : AmbienceManager} (h : Inv s)
    {x : QNetworkReply} (hx : x ∈ thumbnailsInFlight s) (e : Bool) (d : QByteArray) :
    ∃ file s1, s.mThumbnail = some file ∧ finished qt s x.id e d = some s1 ∧
      signals s1.trace = signals s.trace ++
        (if e then [] else [Effect.saveThumbnailSucceeded (QFileInfo.fileName file)]) := by
  obtain ⟨hr, hrep, hres, hconn, hslot, hfile⟩ := h.in_flight hx
  generalize s.mCacheLocation ++ "/" ++ x.name = file at hfile
  refine ⟨file, ?_⟩
  cases e with
  | true =>
    rw [AmbienceManager.finished_thumbnail_error qt s x.id x d hr hrep hres hconn hslot]
    split
    · rename_i hq
      obtain ⟨s1, hs1⟩ := saveNextThumbnail_isSome
        { s.deleteLater x.id with mThumbnailReply := none } (by simpa using hq)
      exact ⟨s1, hfile, hs1, by rw [saveNextThumbnail_trace hs1]; simp; rfl⟩
    · exact ⟨_, hfile, rfl, by simp; rfl⟩
  | false =>
    rw [AmbienceManager.finished_thumbnail_ok qt s x.id x d file hr hrep hres hconn hslot hfile]
    split
    · rename_i hq
      obtain ⟨s1, hs1⟩ := saveNextThumbnail_isSome
        { s.deleteLater x.id with
          mThumbnailReply := none
          mThumbnail := none
          fs := QFile.write s.paths s.fs file (qt.scaledThumbnail file d)
          trace := s.trace ++ [Effect.saveThumbnailSucceeded (QFileInfo.fileName file)] }
        (by simpa using hq)
      refine ⟨s1, hfile, hs1, ?_⟩
      rw [saveNextThumbnail_trace hs1]
      show signals (s.trace ++ [Effect.saveThumbnailSucceeded (QFileInfo.fileName file)]) = _
      rw [signals_append]
      simp [signals]
    · refine ⟨_, hfile, rfl, ?_⟩
      show signals (s.trace ++ [Effect.saveThumbnailSucceeded (QFileInfo.fileName file)]) = _
      rw [signals_append]
      simp [signals]

/-! ## The claims -/

/-- C2: in every reachable state at most one thumbnail fetch is in flight, and `saveThumbnail`
called while one is in flight only appends the request to the queue: no reply is created and
nothing else changes. -/
theorem thumbnail_at_most_one_in_flight (qt : QtLib) (s : AmbienceManager)
    (h : Reachable qt s) :
    (thumbnailsInFlight s).length ≤ 1 ∧
      ∀ fileUrl name, thumbnailsInFlight s ≠ [] →
        s.saveThumbnail fileUrl name =
          some { s with mThumbnailQueue := s.mThumbnailQueue ++ [(fileUrl, name)] } := by
  have hinv := reachable_inv h
  refine ⟨hinv.in_flight_le_one, ?_⟩
  intro fileUrl name hne
  obtain ⟨x, hx⟩ := List.exists_mem_of_ne_nil _ hne
  have hr := (hinv.in_flight hx).1
  unfold AmbienceManager.saveThumbnail
  simp [hr]

theorem thumbnail_at_most_one_in_flight_witness :
    Reachable sampleQt sampleBusy ∧ (thumbnailsInFlight sampleBusy).length ≤ 1 ∧
      ∀ fileUrl name, thumbnailsInFlight sampleBusy ≠ [] →
        sampleBusy.saveThumbnail fileUrl name =
          some { sampleBusy with
            mThumbnailQueue := sampleBusy.mThumbnailQueue ++ [(fileUrl, name)] } :=
  have h : Reachable sampleQt sampleBusy :=
    ⟨"/pictures", "/cache", samplePaths, fun _ => none,
      [Action.saveThumbnail "http://x/a.png" "a", Action.saveThumbnail "http://x/b.png" "b"],
      rfl⟩
  ⟨h, thumbnail_at_most_one_in_flight sampleQt sampleBusy h⟩

/-- C10: in every reachable state the thumbnail queue is empty whenever no thumbnail fetch is
active (no reply tracked, equivalently none in flight); and neither `saveThumbnail` nor the
completion of a thumbnail fetch in flight ever fails, so `saveNextThumbnail` never dequeues
from an empty queue. -/
theorem queue_empty_when_idle (qt : QtLib) (s : AmbienceManager) (h : Reachable qt s) :
    (s.mThumbnailReply = none → s.mThumbnailQueue = []) ∧
      (thumbnailsInFlight s = [] → s.mThumbnailQueue = []) ∧
      (∀ fileUrl name, (s.saveThumbnail fileUrl name).isSome = true) ∧
      (∀ x ∈ thumbnailsInFlight s, ∀ e d, (finished qt s x.id e d).isSome = true) := by
  have hinv := reachable_inv h
  refine ⟨hinv.idle, ?_, ?_, ?_⟩
  · intro hnil
    apply hinv.idle
    cases hr : s.mThumbnailReply with
    | none => rfl
    | some k => exact absurd hnil (hinv.in_flight_of_tracked hr)
  · intro fileUrl name
    unfold AmbienceManager.saveThumbnail
    simp only
    split
    · obtain ⟨s1, hs1⟩ := saveNextThumbnail_isSome
        { s with mThumbnailQueue := s.mThumbnailQueue ++ [(fileUrl, name)] } (by simp)
      rw [hs1]
      rfl
    · rfl
  · intro x hx e d
    obtain ⟨_, s1, _, hs1, _⟩ := hinv.finished_in_flight qt hx e d
    rw [hs1]
    rfl

theorem queue_empty_when_idle_witness :
    Reachable sampleQt sampleBusy ∧
      (sampleBusy.mThumbnailReply = none → sampleBusy.mThumbnailQueue = []) ∧
      (thumbnailsInFlight sampleBusy = [] → sampleBusy.mThumbnailQueue = []) ∧
      (∀ fileUrl name, (sampleBusy.saveThumbnail fileUrl name).isSome = true) ∧
      (∀ x ∈ thumbnailsInFlight sampleBusy, ∀ e d,
        (finished sampleQt sampleBusy x.id e d).isSome = true) :=
  have h : Reachable sampleQt sampleBusy :=
    ⟨"/pictures", "/cache", samplePaths, fun _ => none,
      [Action.saveThumbnail "http://x/a.png" "a", Action.saveThumbnail "http://x/b.png" "b"],
      rfl⟩
  ⟨h, queue_empty_when_idle sampleQt sampleBusy h⟩

/-- C3: in a state where a thumbnail fetch is active (the tracked reply is alive, in flight
and connected) and the queue is non-empty, the completion of that fetch with an error starts
the fetch of the request at the head of the queue and removes it from the queue. -/
theorem error_advances_queue (qt : QtLib) (s : AmbienceManager) (r : Nat)
    (rep : QNetworkReply) (fileUrl : QUrl) (name : QString) (rest : List (QUrl × QString))
    (d : QByteArray)
    (hr : s.mThumbnailReply = some r) (hrep : s.reply r = some rep)
    (hres : rep.result = none) (hconn : rep.connected = true)
    (hslot : rep.slot = Slot.onSaveThumbnailFinished)
    (hq : s.mThumbnailQueue = (fileUrl, name) :: rest) :
    ∃ s1, step qt s (Action.finished r true d) = some s1 ∧
      s1.mThumbnailQueue = rest ∧
      s1.trace = s.trace ++ [Effect.get fileUrl] ∧
      s1.mThumbnailReply = some s.nextReply ∧
      { id := s.nextReply, url := fileUrl, name := name, slot := Slot.onSaveThumbnailFinished,
        connected := true, result := none } ∈ thumbnailsInFlight s1 ∧
      s1.mThumbnail = some (s.mCacheLocation ++ "/" ++ name) := by
  have hstep : step qt s (Action.finished r true d) = finished qt s r true d := rfl
  rw [hstep, AmbienceManager.finished_thumbnail_error qt s r rep d hr hrep hres hconn hslot]
  simp only [hq, List.isEmpty_cons, Bool.not_false, if_true]
  rw [AmbienceManager.saveNextThumbnail_cons { s.deleteLater r with mThumbnailReply := none }
    fileUrl name rest hq]
  refine ⟨_, rfl, rfl, rfl, rfl, ?_, rfl⟩
  apply mem_thumbnailsInFlight.mpr
  exact ⟨List.mem_append.mpr (Or.inr (List.mem_singleton.mpr rfl)), rfl, rfl⟩

theorem error_advances_queue_witness :
    ∃ s1, step sampleQt sampleBusy (Action.finished 0 true []) = some s1 ∧
      s1.mThumbnailQueue = [] ∧
      s1.trace = sampleBusy.trace ++ [Effect.get "http://x/b.png"] ∧
      s1.mThumbnailReply = some sampleBusy.nextReply ∧
      { id := sampleBusy.nextReply, url := "http://x/b.png", name := "b",
        slot := Slot.onSaveThumbnailFinished, connected := true, result := none }
        ∈ thumbnailsInFlight s1 ∧
      s1.mThumbnail = some (sampleBusy.mCacheLocation ++ "/" ++ "b") :=
  error_advances_queue sampleQt sampleBusy 0
    { id := 0, url := "http://x/a.png", name := "a", slot := Slot.onSaveThumbnailFinished,
      connected := true, result := none }
    "http://x/b.png" "b" [] [] rfl rfl rfl rfl rfl rfl

/-- C4: when no file exists at cacheDir + "/ambience-" + name, `saveImageToGallery(name)`
returns false and leaves the whole state as it was: the filesystem, the trace of events and
the record of exported images included. -/
theorem saveImageToGallery_missing (s : AmbienceManager) (name : QString)
    (h : s.fs (s.mCacheLocation ++ "/ambience-" ++ name) = none) :
    s.saveImageToGallery name = (false, s) := by
  unfold AmbienceManager.saveImageToGallery
  simp [QFile.fileExists, h]

theorem saveImageToGallery_missing_witness :
    sampleManager.fs (sampleManager.mCacheLocation ++ "/ambience-" ++ "missing") = none ∧
      sampleManager.saveImageToGallery "missing" = (false, sampleManager) :=
  ⟨rfl, saveImageToGallery_missing sampleManager "missing" rfl⟩

/-- C6, as the claim states it, fails: the fetch for `a` ends in error and the manager emits
nothing, the trace stays as it was. -/
theorem no_event_on_fetch_error :
    run sampleQt sampleManager [Action.saveThumbnail "http://x/a.png" "a"] =
        some sampleFetching ∧
      (thumbnailsInFlight sampleFetching).map (fun r => (r.id, r.url)) =
        [(0, "http://x/a.png")] ∧
      (step sampleQt sampleFetching (Action.finished 0 true [])).map
          (fun s => (s.trace, thumbnailsInFlight s)) =
        some (sampleFetching.trace, []) := by
  refine ⟨rfl, by decide, by decide⟩

/-- C6, amended: when a thumbnail fetch in flight completes, `saveThumbnailSucceeded` with the
base name of the destination file is the one signal emitted if the fetch succeeded, and no
signal is emitted if it ended in error. -/
theorem thumbnail_completion_event (qt : QtLib) (s : AmbienceManager) (h : Reachable qt s)
    (x : QNetworkReply) (hx : x ∈ thumbnailsInFlight s) (e : Bool) (d : QByteArray) :
    ∃ file s1, s.mThumbnail = some file ∧
      step qt s (Action.finished x.id e d) = some s1 ∧
      signals s1.trace = signals s.trace ++
        (if e then [] else [Effect.saveThumbnailSucceeded (QFileInfo.fileName file)]) :=
  (reachable_inv h).finished_in_flight qt hx e d

theorem thumbnail_completion_event_witness :
    Reachable sampleQt sampleBusy ∧
      ∃ file s1, sampleBusy.mThumbnail = some file ∧
        step sampleQt sampleBusy (Action.finished 0 false [7]) = some s1 ∧
        signals s1.trace = signals sampleBusy.trace ++
          (if false then [] else [Effect.saveThumbnailSucceeded (QFileInfo.fileName file)]) :=
  have h : Reachable sampleQt sampleBusy :=
    ⟨"/pictures", "/cache", samplePaths, fun _ => none,
      [Action.saveThumbnail "http://x/a.png" "a", Action.saveThumbnail "http://x/b.png" "b"],
      rfl⟩
  ⟨h, thumbnail_completion_event sampleQt sampleBusy h
    { id := 0, url := "http://x/a.png", name := "a", slot := Slot.onSaveThumbnailFinished,
      connected := true, result := none } (by decide) false [7]⟩

theorem cache_path_eq (cache x : QString) :
    cache ++ "/" ++ "ambience-" ++ x = cache ++ "/ambience-" ++ x := by
  rw [String.append_assoc cache "/" "ambience-"]
  rfl

theorem write_other (paths : Paths) (fs : FileSystem) (file : QString) (bytes : QByteArray)
    {p : QString} (hp : paths.canonical p ≠ paths.canonical file) :
    QFile.write paths fs file bytes p = fs p := by
  unfold QFile.write
  split
  · exact if_neg hp
  · rfl

theorem openWriteOnly_other (paths : Paths) (fs : FileSystem) (file : QString) {p : QString}
    (hp : paths.canonical p ≠ paths.canonical file) :
    QFile.openWriteOnly paths fs file p = fs p := by
  unfold QFile.openWriteOnly
  split
  · exact if_neg hp
  · rfl

theorem find_append_fresh {l : List QNetworkReply} {new : QNetworkReply} {n : Nat}
    (hfresh : ∀ x ∈ l, x.id < n) (hid : new.id = n) :
    (l ++ [new]).find? (fun x => x.id == n) = some new := by
  rw [List.find?_append]
  have hnone : l.find? (fun x => x.id == n) = none := by
    apply List.find?_eq_none.mpr
    intro x hx
    have := hfresh x hx
    simp
    omega
  rw [hnone]
  simp [hid]

theorem onSaveFullImageFinished_ok (s : AmbienceManager) (r : Nat) (rep : QNetworkReply)
    (file : QString) (hr : s.mFullImageReply = some r) (hrep : s.reply r = some rep)
    (herr : rep.error = false) (hfile : s.mFullImage = some file) :
    ∃ s1, s.onSaveFullImageFinished = some s1 ∧
      s1.trace = s.trace ++ [Effect.saveFullImageSucceeded file] ∧
      s1.fs = QFile.write s.paths s.fs file rep.readAll ∧
      s1.mCacheLocation = s.mCacheLocation := by
  unfold AmbienceManager.onSaveFullImageFinished
  rw [hr]
  simp only [AmbienceManager.reply_disconnect, hrep, Option.map_some']
  have herr2 : QNetworkReply.error
      (if (rep.id == r && rep.slot == Slot.onSaveFullImageFinished) = true
      then { rep with connected := false } else rep) = false := by
    split <;> exact herr
  have hread : QNetworkReply.readAll
      (if (rep.id == r && rep.slot == Slot.onSaveFullImageFinished) = true
      then { rep with connected := false } else rep) = rep.readAll := by
    split <;> rfl
  have hfile2 : (s.disconnect r Slot.onSaveFullImageFinished).mFullImage = some file := hfile
  simp only [herr2, hread, hfile2, Bool.not_false, if_true]
  exact ⟨_, rfl, rfl, rfl, rfl⟩

/-- C7, as the claim states it, fails. The call `saveFullImage(url, "x")` creates the file
that `hasThumbnail("ambience-x")` looks for, and `hasThumbnail("./ambience-x")` finds the
same file under another name of it; and when `saveFullImage` is called again before the first
fetch completes, the completion of the first fetch announces the path of the second. -/
theorem full_image_shares_thumbnail_names :
    sampleManager.hasThumbnail "ambience-x" = false ∧
      (sampleManager.saveFullImage "http://x/full.png" "x").hasThumbnail "ambience-x" = true ∧
      sampleManager.hasThumbnail "./ambience-x" = false ∧
      (sampleManager.saveFullImage "http://x/full.png" "x").hasThumbnail "./ambience-x" =
        true ∧
      (run sampleQt sampleManager
          [Action.saveFullImage "http://x/full.png" "x",
           Action.saveFullImage "http://y/full.png" "y",
           Action.finished 0 false [1, 2, 3]]).map (fun s => s.trace) =
        some [Effect.get "http://x/full.png", Effect.get "http://y/full.png",
          Effect.saveFullImageSucceeded "/cache/ambience-y"] := by
  refine ⟨by decide, by decide, by decide, by decide, by decide⟩

/-- C7, amended: right after `saveFullImage(url, x)` the full-image slot refers to the fetch
just started, with destination cacheDir + "/ambience-" + x; whenever that fetch completes
successfully while the slot still refers to it, `saveFullImageSucceeded` carries that path;
and neither the call nor the completion changes `hasThumbnail(n)` for a name `n` whose path
cacheDir + "/" + n leads to another file than cacheDir + "/ambience-" + x. -/
theorem saveFullImage_event_and_frame (qt : QtLib) (s : AmbienceManager) (h : Reachable qt s)
    (fileUrl : QUrl) (x : QString) :
    FullImageTracked (s.saveFullImage fileUrl x) s.nextReply
        (s.mCacheLocation ++ "/ambience-" ++ x) ∧
      (∀ n, s.paths.canonical (s.mCacheLocation ++ "/" ++ n) ≠
          s.paths.canonical (s.mCacheLocation ++ "/ambience-" ++ x) →
        (s.saveFullImage fileUrl x).hasThumbnail n = s.hasThumbnail n) ∧
      ∀ s1 d, FullImageTracked s1 s.nextReply (s.mCacheLocation ++ "/ambience-" ++ x) →
        ∃ s2, step qt s1 (Action.finished s.nextReply false d) = some s2 ∧
          s2.trace = s1.trace ++
            [Effect.saveFullImageSucceeded (s.mCacheLocation ++ "/ambience-" ++ x)] ∧
          ∀ n, s1.paths.canonical (s1.mCacheLocation ++ "/" ++ n) ≠
              s1.paths.canonical (s.mCacheLocation ++ "/ambience-" ++ x) →
            s2.hasThumbnail n = s1.hasThumbnail n := by
  have hinv := reachable_inv h
  refine ⟨⟨rfl, ?_, _, find_append_fresh hinv.replies.fresh rfl, rfl, rfl, rfl⟩, ?_, ?_⟩
  · show some (s.mCacheLocation ++ "/" ++ "ambience-" ++ x) = _
    rw [cache_path_eq]
  · intro n hn
    show (QFile.openWriteOnly s.paths s.fs (s.mCacheLocation ++ "/" ++ "ambience-" ++ x)
      (s.mCacheLocation ++ "/" ++ n)).isSome = (s.fs (s.mCacheLocation ++ "/" ++ n)).isSome
    rw [cache_path_eq, openWriteOnly_other _ _ _ hn]
  · intro s1 d ⟨hr, hfile, rep, hrep, hres, hconn, hslot⟩
    have hid := (find_id hrep).1
    have hstep : step qt s1 (Action.finished s.nextReply false d) =
        AmbienceManager.onSaveFullImageFinished (s1.setFinished s.nextReply false d) := by
      show finished qt s1 s.nextReply false d = _
      unfold finished
      rw [hrep]
      simp [hres, hconn, hslot]
    obtain ⟨s2, hs2, htrace, hfs, hcache⟩ := onSaveFullImageFinished_ok
      (s1.setFinished s.nextReply false d) s.nextReply { rep with result := some (false, d) }
      (s.mCacheLocation ++ "/ambience-" ++ x) hr
      (by rw [AmbienceManager.reply_setFinished, hrep]; simp [hid]) rfl hfile
    refine ⟨s2, hstep.trans hs2, htrace, ?_⟩
    intro n hn
    have hother :
        s2.fs (s1.mCacheLocation ++ "/" ++ n) = s1.fs (s1.mCacheLocation ++ "/" ++ n) := by
      rw [hfs]
      exact write_other s1.paths s1.fs _ _ hn
    unfold AmbienceManager.hasThumbnail QFile.fileExists
    simp only [hcache]
    show (s2.fs (s1.mCacheLocation ++ "/" ++ n)).isSome = _
    rw [hother]

theorem saveFullImage_event_and_frame_witness :
    Reachable sampleQt sampleManager ∧
      FullImageTracked (sampleManager.saveFullImage "http://x/full.png" "x")
        sampleManager.nextReply (sampleManager.mCacheLocation ++ "/ambience-" ++ "x") ∧
      (∀ n, sampleManager.paths.canonical (sampleManager.mCacheLocation ++ "/" ++ n) ≠
          sampleManager.paths.canonical
            (sampleManager.mCacheLocation ++ "/ambience-" ++ "x") →
        (sampleManager.saveFullImage "http://x/full.png" "x").hasThumbnail n =
          sampleManager.hasThumbnail n) ∧
      ∀ s1 d, FullImageTracked s1 sampleManager.nextReply
          (sampleManager.mCacheLocation ++ "/ambience-" ++ "x") →
        ∃ s2, step sampleQt s1 (Action.finished sampleManager.nextReply false d) = some s2 ∧
          s2.trace = s1.trace ++
            [Effect.saveFullImageSucceeded
              (sampleManager.mCacheLocation ++ "/ambience-" ++ "x")] ∧
          ∀ n, s1.paths.canonical (s1.mCacheLocation ++ "/" ++ n) ≠
              s1.paths.canonical (sampleManager.mCacheLocation ++ "/ambience-" ++ "x") →
            s2.hasThumbnail n = s1.hasThumbnail n :=
  have h : Reachable sampleQt sampleManager :=
    ⟨"/pictures", "/cache", samplePaths, fun _ => none, [], rfl⟩
  ⟨h, saveFullImage_event_and_frame sampleQt sampleManager h "http://x/full.png" "x"⟩

/-- C8: `saveImageToGalleryAndApplyAmbience(name)` returns what `saveImageToGallery(name)`
returns; when that is false the state is untouched (no call to the service); when it is true
the effects are those of `saveImageToGallery` followed by exactly `createAmbience(ref)` and
`setAmbience(ref)`, with `ref` the file URL of pictureDir + "/ambience-" + name. -/
theorem saveImageToGalleryAndApplyAmbience_calls (qt : QtLib) (s : AmbienceManager)
    (name : QString) :
    (s.saveImageToGalleryAndApplyAmbience qt name).1 = (s.saveImageToGallery name).1 ∧
      ((s.saveImageToGallery name).1 = false →
        (s.saveImageToGalleryAndApplyAmbience qt name).2 = s) ∧
      ((s.saveImageToGallery name).1 = true →
        (s.saveImageToGalleryAndApplyAmbience qt name).2.trace =
            (s.saveImageToGallery name).2.trace ++
              [Effect.createAmbience
                 (qt.fromLocalFile (s.mPictureLocation ++ "/ambience-" ++ name)),
               Effect.setAmbience
                 (qt.fromLocalFile (s.mPictureLocation ++ "/ambience-" ++ name))] ∧
          serviceCalls (s.saveImageToGalleryAndApplyAmbience qt name).2.trace =
            serviceCalls s.trace ++
              [Effect.createAmbience
                 (qt.fromLocalFile (s.mPictureLocation ++ "/ambience-" ++ name)),
               Effect.setAmbience
                 (qt.fromLocalFile (s.mPictureLocation ++ "/ambience-" ++ name))]) := by
  unfold AmbienceManager.saveImageToGalleryAndApplyAmbience AmbienceManager.saveImageToGallery
  by_cases hex : QFile.fileExists s.fs (s.mCacheLocation ++ "/ambience-" ++ name) = true
  · simp [hex, AmbienceManager.emit, AmbienceManager.createAmbienceImage, serviceCalls,
      List.filter_append]
  · simp [hex]

theorem run_append (qt : QtLib) (s : AmbienceManager) (as bs : List Action) :
    run qt s (as ++ bs) = (run qt s as).bind (fun s1 => run qt s1 bs) := by
  induction as generalizing s with
  | nil => rfl
  | cons a as ih =>
    simp only [List.cons_append, run]
    cases step qt s a with
    | none => rfl
    | some s1 => exact ih s1

theorem filter_others_thumbnail (others : List QNetworkReply)
    (h : ∀ x ∈ others, x.slot = Slot.onSaveFullImageFinished) :
    others.filter (fun r => r.slot == Slot.onSaveThumbnailFinished && r.result.isNone) = [] := by
  apply List.filter_eq_nil_iff.mpr
  intro x hx
  simp [h x hx]

theorem Fetching.after_calls (qt : QtLib) {cache : QString} {others : List QNetworkReply}
    {k : Nat} {u : QUrl} {n : QString} (requests : List (QUrl × QString))
    {s : AmbienceManager} {q : List (QUrl × QString)} (h : Fetching s cache others k u n q) :
    ∃ s1, run qt s (saveThumbnailCalls requests) = some s1 ∧
      Fetching s1 cache others k u n (q ++ requests) ∧ s1.trace = s.trace := by
  induction requests generalizing s q with
  | nil =>
    refine ⟨s, rfl, ?_, rfl⟩
    rw [List.append_nil]
    exact h
  | cons r requests ih =>
    have hstep : step qt s (Action.saveThumbnail r.1 r.2) =
        some { s with mThumbnailQueue := s.mThumbnailQueue ++ [(r.1, r.2)] } := by
      show s.saveThumbnail r.1 r.2 = _
      unfold AmbienceManager.saveThumbnail
      simp [h.reply]
    have h1 : Fetching { s with mThumbnailQueue := s.mThumbnailQueue ++ [(r.1, r.2)] }
        cache others k u n (q ++ [r]) :=
      ⟨h.reply, h.nam, h.old, h.next, by rw [← h.waiting], h.file, h.cache⟩
    obtain ⟨s1, hrun, hs1, htrace⟩ := ih h1
    refine ⟨s1, ?_, ?_, htrace⟩
    · simp only [saveThumbnailCalls, List.map_cons, run, hstep, Option.some_bind]
      exact hrun
    · rw [List.append_assoc] at hs1
      exact hs1

theorem Fetching.one_in_flight {cache : QString} {others : List QNetworkReply} {k : Nat}
    {u : QUrl} {n : QString} {s : AmbienceManager} {q : List (QUrl × QString)}
    (h : Fetching s cache others k u n q) : (thumbnailsInFlight s).length = 1 := by
  unfold thumbnailsInFlight
  rw [h.nam, List.filter_append, filter_others_thumbnail others (fun x hx => (h.old x hx).2)]
  rfl

theorem Fetching.after_completions (qt : QtLib) {cache : QString}
    {others : List QNetworkReply} (cs : List (Bool × QByteArray)) {k : Nat} {u : QUrl}
    {n : QString} {s : AmbienceManager} {q : List (QUrl × QString)}
    (h : Fetching s cache others k u n q) (hlen : cs.length ≤ q.length + 1) :
    ∃ s1, run qt s (completions k cs) = some s1 ∧
      fetches s1.trace = fetches s.trace ++ (q.take cs.length).map Prod.fst ∧
      (thumbnailsInFlight s1).length = (if cs.length < q.length + 1 then 1 else 0) ∧
      signals s1.trace = signals s.trace ++ thumbnailSavedEvents cache ((u, n) :: q) cs := by
  induction cs generalizing s k u n q with
  | nil =>
    refine ⟨s, rfl, by simp, ?_, by simp [thumbnailSavedEvents]⟩
    rw [h.one_in_flight]
    simp
  | cons c cs ih =>
    obtain ⟨e, d⟩ := c
    have hrep : s.reply k = some
        { id := k, url := u, name := n, slot := Slot.onSaveThumbnailFinished,
          connected := true, result := none } := by
      unfold AmbienceManager.reply
      rw [h.nam]
      exact find_append_fresh (fun x hx => (h.old x hx).1) rfl
    have hdel : (s.deleteLater k).mNam = others := by
      unfold AmbienceManager.deleteLater
      simp only [h.nam, List.filter_append]
      have hkeep : others.filter (fun x => !(x.id == k)) = others := by
        apply List.filter_eq_self.mpr
        intro x hx
        have := (h.old x hx).1
        simp
        omega
      rw [hkeep]
      simp
    -- the state the completion leaves before it looks at the queue
    obtain ⟨b, hb, hbnam, hbnext, hbq, hbcache, hbtrace⟩ :
        ∃ b : AmbienceManager,
          step qt s (Action.finished k e d) =
            (if (!b.mThumbnailQueue.isEmpty) = true then b.saveNextThumbnail else some b) ∧
          b.mNam = others ∧ b.nextReply = k + 1 ∧ b.mThumbnailQueue = q ∧
          b.mCacheLocation = cache ∧
          b.trace = s.trace ++ (if e then [] else
            [Effect.saveThumbnailSucceeded (QFileInfo.fileName (cache ++ "/" ++ n))]) := by
      cases e with
      | true =>
        refine ⟨{ s.deleteLater k with mThumbnailReply := none }, ?_, hdel, h.next, h.waiting,
          h.cache, by simp [AmbienceManager.deleteLater]⟩
        exact AmbienceManager.finished_thumbnail_error qt s k _ d h.reply hrep rfl rfl rfl
      | false =>
        refine ⟨{ s.deleteLater k with
            mThumbnailReply := none
            mThumbnail := none
            fs := QFile.write s.paths s.fs (cache ++ "/" ++ n)
              (qt.scaledThumbnail (cache ++ "/" ++ n) d)
            trace := s.trace ++
              [Effect.saveThumbnailSucceeded (QFileInfo.fileName (cache ++ "/" ++ n))] },
          ?_, hdel, h.next, h.waiting, h.cache, by simp⟩
        exact AmbienceManager.finished_thumbnail_ok qt s k _ d _ h.reply hrep rfl rfl rfl h.file
    cases q with
    | nil =>
      have hcs : cs = [] := by
        apply List.eq_nil_of_length_eq_zero
        simp only [List.length_cons, List.length_nil] at hlen
        omega
      subst hcs
      refine ⟨b, ?_, ?_, ?_, ?_⟩
      · simp only [completions, run, hb, hbq, List.isEmpty_nil, Bool.not_true,
          Bool.false_eq_true, if_false, Option.some_bind]
      · rw [hbtrace, fetches_append]
        cases e <;> simp [fetches]
      · unfold thumbnailsInFlight
        rw [hbnam, filter_others_thumbnail others (fun x hx => (h.old x hx).2)]
        simp
      · rw [hbtrace, signals_append]
        cases e <;> simp [thumbnailSavedEvents, signals]
    | cons r q =>
      obtain ⟨u1, n1⟩ := r
      have hnext := AmbienceManager.saveNextThumbnail_cons b u1 n1 q hbq
      have hf : Fetching
          { b with
            mThumbnailQueue := q
            mThumbnailReply := some b.nextReply
            mNam := b.mNam ++ [{ id := b.nextReply, url := u1, name := n1,
                                 slot := Slot.onSaveThumbnailFinished, connected := true,
                                 result := none }]
            nextReply := b.nextReply + 1
            trace := b.trace ++ [Effect.get u1]
            mThumbnail := some (b.mCacheLocation ++ "/" ++ n1)
            fs := QFile.openWriteOnly b.paths b.fs (b.mCacheLocation ++ "/" ++ n1) }
          cache others (k + 1) u1 n1 q :=
        ⟨by simp [hbnext], by simp [hbnam, hbnext],
          fun x hx => ⟨Nat.lt_succ_of_lt (h.old x hx).1, (h.old x hx).2⟩,
          by simp [hbnext], rfl, by simp [hbcache], hbcache⟩
      obtain ⟨s1, hrun, hfetch, hflight, hsig⟩ := ih hf
        (by simp only [List.length_cons] at hlen ⊢; omega)
      refine ⟨s1, ?_, ?_, ?_, ?_⟩
      · simp only [completions, run, hb, hbq, List.isEmpty_cons, Bool.not_false, if_true, hnext,
          Option.some_bind]
        exact hrun
      · rw [hfetch]
        simp only [hbtrace, fetches_append, List.length_cons, List.take_succ_cons, List.map_cons,
          List.append_assoc]
        cases e <;> simp [fetches]
      · rw [hflight]
        simp only [List.length_cons]
        congr 1
        apply propext
        omega
      · rw [hsig]
        simp only [hbtrace, signals_append, List.append_assoc]
        cases e <;> simp [thumbnailSavedEvents, signals]

/-- C1: in a reachable state with no thumbnail fetch in flight (a fresh manager, for one), for
N >= 1 requests passed to `saveThumbnail` before any fetch completes, and any k <= N
completions delivered afterwards (each with or without error): the run does not fail; exactly
the first min(k + 1, N) fetches have been started, with the URLs of the requests in call
order; one fetch is in flight while k < N and none once k = N; and the signals emitted are
`saveThumbnailSucceeded`, once per fetch that finished without error, in call order. -/
theorem saveThumbnail_fifo (qt : QtLib) (s : AmbienceManager) (h : Reachable qt s)
    (hidle : thumbnailsInFlight s = []) (requests : List (QUrl × QString))
    (cs : List (Bool × QByteArray))
    (hN : 1 ≤ requests.length) (hlen : cs.length ≤ requests.length) :
    ∃ s1, run qt s (saveThumbnailCalls requests ++ completions s.nextReply cs) = some s1 ∧
      fetches s1.trace = fetches s.trace ++ (requests.take (cs.length + 1)).map Prod.fst ∧
      (thumbnailsInFlight s1).length = (if cs.length < requests.length then 1 else 0) ∧
      signals s1.trace =
        signals s.trace ++ thumbnailSavedEvents s.mCacheLocation requests cs := by
  have hinv := reachable_inv h
  have hnone : s.mThumbnailReply = none := by
    cases hr : s.mThumbnailReply with
    | none => rfl
    | some k => exact absurd hidle (hinv.in_flight_of_tracked hr)
  have hquiet := hinv.toQuiet hnone
  have hqueue := hinv.idle hnone
  cases requests with
  | nil => simp at hN
  | cons r requests =>
    obtain ⟨u, n⟩ := r
    have hstep : step qt s (Action.saveThumbnail u n) = some
        { s with
          mThumbnailQueue := []
          mThumbnailReply := some s.nextReply
          mNam := s.mNam ++ [{ id := s.nextReply, url := u, name := n,
                               slot := Slot.onSaveThumbnailFinished, connected := true,
                               result := none }]
          nextReply := s.nextReply + 1
          trace := s.trace ++ [Effect.get u]
          mThumbnail := some (s.mCacheLocation ++ "/" ++ n)
          fs := QFile.openWriteOnly s.paths s.fs (s.mCacheLocation ++ "/" ++ n) } := by
      show s.saveThumbnail u n = _
      unfold AmbienceManager.saveThumbnail
      simp only [hnone, Option.isNone_none, if_true]
      exact AmbienceManager.saveNextThumbnail_cons
        { s with mThumbnailQueue := s.mThumbnailQueue ++ [(u, n)] } u n []
        (by simp [hqueue])
    have hfirst : Fetching
        { s with
          mThumbnailQueue := []
          mThumbnailReply := some s.nextReply
          mNam := s.mNam ++ [{ id := s.nextReply, url := u, name := n,
                               slot := Slot.onSaveThumbnailFinished, connected := true,
                               result := none }]
          nextReply := s.nextReply + 1
          trace := s.trace ++ [Effect.get u]
          mThumbnail := some (s.mCacheLocation ++ "/" ++ n)
          fs := QFile.openWriteOnly s.paths s.fs (s.mCacheLocation ++ "/" ++ n) }
        s.mCacheLocation s.mNam s.nextReply u n [] := by
      refine ⟨rfl, rfl, ?_, rfl, rfl, rfl, rfl⟩
      intro x hx
      refine ⟨hinv.replies.fresh x hx, ?_⟩
      have := hquiet.none_alive x hx
      cases hslot : x.slot with
      | onSaveThumbnailFinished => exact absurd hslot this
      | onSaveFullImageFinished => rfl
    obtain ⟨s1, hrun1, hs1, htrace1⟩ := hfirst.after_calls qt requests
    rw [List.nil_append] at hs1
    obtain ⟨s2, hrun2, hfetch, hflight, hsig⟩ := hs1.after_completions qt cs
      (by simpa using hlen)
    refine ⟨s2, ?_, ?_, ?_, ?_⟩
    · rw [run_append]
      have : run qt s (saveThumbnailCalls ((u, n) :: requests)) = some s1 := by
        simp only [saveThumbnailCalls, List.map_cons, run, hstep, Option.some_bind]
        exact hrun1
      rw [this]
      exact hrun2
    · rw [hfetch, htrace1]
      show fetches (s.trace ++ [Effect.get u]) ++ _ = _
      rw [fetches_append]
      simp [fetches]
    · rw [hflight]
      rfl
    · rw [hsig, htrace1]
      show signals (s.trace ++ [Effect.get u]) ++ _ = _
      rw [signals_append]
      simp [signals]

theorem saveThumbnail_fifo_witness :
    Reachable sampleQt sampleManager ∧
      ∃ s1, run sampleQt sampleManager
          (saveThumbnailCalls [("http://x/a.png", "a"), ("http://x/b.png", "b")] ++
            completions sampleManager.nextReply [(false, [1]), (false, [2])]) = some s1 ∧
        fetches s1.trace = fetches sampleManager.trace ++
          ([("http://x/a.png", "a"), ("http://x/b.png", "b")].take
            ([(false, [1]), (false, [2])].length + 1)).map Prod.fst ∧
        (thumbnailsInFlight s1).length =
          (if [(false, [1]), (false, [2])].length <
              [("http://x/a.png", "a"), ("http://x/b.png", "b")].length then 1 else 0) ∧
        signals s1.trace = signals sampleManager.trace ++
          thumbnailSavedEvents sampleManager.mCacheLocation
            [("http://x/a.png", "a"), ("http://x/b.png", "b")] [(false, [1]), (false, [2])] :=
  have h : Reachable sampleQt sampleManager :=
    ⟨"/pictures", "/cache", samplePaths, fun _ => none, [], rfl⟩
  ⟨h, saveThumbnail_fifo sampleQt sampleManager h (by decide)
    [("http://x/a.png", "a"), ("http://x/b.png", "b")] [(false, [1]), (false, [2])]
    (by decide) (by decide)⟩

end TrulyYours
